import Mathlib

/-!
# Verification of the Unibet → Boss parsing/replication core

Shallow embedding of `streamlit_app.py` (Cricket-Player-Props-Extractor).

Modelling conventions:
* Python strings are Lean `String`s; per-character work happens on `List Char`.
* Python `str.strip()` / `\s` use the ASCII whitespace set (space, tab, LF,
  CR, VT, FF), which is what every input the program sees contains.
* Regular expressions are modelled by hand-rolled matchers that follow the
  regex semantics (greedy `\s*`/`\s+`, lazy capture `(.*?)`, case-insensitive
  literals, anchored at both ends).
* `pandas` frames are modelled as a column list plus rows of
  (column, value) association lists; fallible frame operations (column
  selection with missing labels raises `KeyError`, `bool()` of a `Series`
  raises `ValueError`) return `Option` / `Except`.
-/

/-! ## Character level primitives -/

/-- ASCII whitespace as matched by Python's `\s` / `str.strip`. -/
def pySpace (c : Char) : Bool :=
  c.toNat = 32 || c.toNat = 9 || c.toNat = 10 || c.toNat = 13 || c.toNat = 11 || c.toNat = 12

/-- ASCII decimal digit, as matched by `\d` on the program's inputs. -/
def pyDigit (c : Char) : Bool :=
  48 ≤ c.toNat && c.toNat ≤ 57

/-- Lower-case ASCII letter or digit: the character class `[a-z0-9]`
used by `_norm_key`. -/
def lowerAlnum (c : Char) : Bool :=
  pyDigit c || (97 ≤ c.toNat && c.toNat ≤ 122)

/-- The dash alternatives `[–—-]` accepted between heading fields. -/
def isDash (c : Char) : Bool :=
  c.toNat = 45 || c.toNat = 8211 || c.toNat = 8212

/-- Drop leading ASCII whitespace (the `\s*` step, and the left half of
`str.strip`). -/
def dropWs : List Char → List Char
  | [] => []
  | c :: cs => if pySpace c then dropWs cs else c :: cs

/-- Drop trailing ASCII whitespace (the right half of `str.strip`). -/
def dropTrailWs : List Char → List Char
  | [] => []
  | c :: cs =>
    match dropTrailWs cs with
    | [] => if pySpace c then [] else [c]
    | r => c :: r

/-- Python `str.strip()`. -/
def pyStrip (s : String) : String :=
  String.mk (dropWs (dropTrailWs s.data))

/-- Python `str.lower()` (ASCII case folding; the program's data is ASCII
apart from dashes, which are unaffected). -/
def lowerStr (s : String) : String :=
  String.mk (s.data.map Char.toLower)

/-- One pass of `re.sub(r"\s+", " ", ·)`: every maximal whitespace run
becomes a single space. -/
def collapseWsAux : List Char → List Char
  | [] => []
  | [c] => if pySpace c then [' '] else [c]
  | c1 :: c2 :: cs =>
    if pySpace c1 && pySpace c2 then collapseWsAux (c2 :: cs)
    else (if pySpace c1 then ' ' else c1) :: collapseWsAux (c2 :: cs)

/-- `re.sub(r"\s+", " ", s)`. -/
def collapseWs (s : String) : String :=
  String.mk (collapseWsAux s.data)

/-! ## Regex models -/

/-- Case-insensitive literal matcher: consume `lit` (given lower-case) from
the front of `cs`, returning the remainder. -/
def litCI : List Char → List Char → Option (List Char)
  | [], cs => some cs
  | _ :: _, [] => none
  | l :: ls, c :: cs => if c.toLower = l then litCI ls cs else none

/-- `\s+` (then greedily absorb the whole run, as the regex does before a
letter literal). -/
def ws1 : List Char → Option (List Char)
  | [] => none
  | c :: cs => if pySpace c then some (dropWs cs) else none

/-- `RE_PLAYER_OF_MATCH`: `^\s*Player\s+of\s+the\s+Match\s*$`, ignorecase. -/
def matchPOM (s : String) : Bool :=
  match litCI "player".data (dropWs s.data) >>= ws1 >>= litCI "of".data >>= ws1 >>=
      litCI "the".data >>= ws1 >>= litCI "match".data with
  | some r => r.all pySpace
  | none => false

/-- The anchored tail `\s*[–—-]\s*1st\s*Innings\s*$` that must follow the
lazily captured team text. -/
def tailTeam (cs : List Char) : Bool :=
  match dropWs cs with
  | [] => false
  | c :: rest =>
    isDash c &&
      (match litCI "1st".data (dropWs rest) with
       | some r2 =>
         match litCI "innings".data (dropWs r2) with
         | some r3 => r3.all pySpace
         | none => false
       | none => false)

/-- Lazy capture `(.*?)` before `tailTeam`: the shortest prefix whose
complement matches the tail (regex backtracking order). -/
def findSplit : List Char → Option (List Char)
  | [] => if tailTeam [] then some [] else none
  | c :: rest =>
    if tailTeam (c :: rest) then some []
    else (findSplit rest).map (fun cap => c :: cap)

/-- Shared suffix `\s*[–—-]\s*(.*?)\s*[–—-]\s*1st\s*Innings\s*$` of the two
team headings, applied after the market label; returns the captured team. -/
def dashTeamSuffix (r : List Char) : Option String :=
  match dropWs r with
  | [] => none
  | c :: rest =>
    if isDash c then (findSplit (dropWs rest)).map String.mk else none

/-- `RE_TOP_BOWLER_TEAM`: `^\s*Top\s+Bowler\s*[–—-]\s*(.*?)\s*[–—-]\s*1st\s*Innings\s*$`,
ignorecase; returns `group(1)`. -/
def matchTopBowlerTeam (s : String) : Option String :=
  match litCI "top".data (dropWs s.data) >>= ws1 >>= litCI "bowler".data with
  | some r => dashTeamSuffix r
  | none => none

/-- `RE_TOP_RUNSCORER_TEAM`: `^\s*Top\s+Run\s*Scorer\s*[–—-]\s*(.*?)\s*[–—-]\s*1st\s*Innings\s*$`,
ignorecase; returns `group(1)`. Note `Run\s*Scorer` allows zero spaces. -/
def matchTopRunScorerTeam (s : String) : Option String :=
  match litCI "top".data (dropWs s.data) >>= ws1 >>= litCI "run".data with
  | some r =>
    match litCI "scorer".data (dropWs r) with
    | some r2 => dashTeamSuffix r2
    | none => none
  | none => none

/-- Consume a digit run. -/
def dropDigits : List Char → List Char
  | [] => []
  | c :: cs => if pyDigit c then dropDigits cs else c :: cs

/-- `RE_DECIMAL`: `^\d+(?:\.\d+)?$`. -/
def isDecimal (s : String) : Bool :=
  match s.data with
  | [] => false
  | c :: cs =>
    pyDigit c &&
      (match dropDigits cs with
       | [] => true
       | d :: rest => d = '.' && !rest.isEmpty && rest.all pyDigit)

/-- The `STOP_WORDS` set (compared against the lower-cased full line). -/
def STOP_WORDS : List String :=
  ["view less", "view more", "odds format", "help", "safer gambling", "about us", "apps", "blog",
   "fair gaming policy", "unibet community", "all sports", "home", "in-play", "explore",
   "favourites", "search sports, leagues or teams", "toss winner", "winner (incl. super over)",
   "match", "over", "dismissal", "sports", "casino", "live casino", "bingo", "poker",
   "top run scorer", "top bowler"]

/-- `_is_heading`. -/
def is_heading (line : String) : Bool :=
  matchPOM line || (matchTopBowlerTeam line).isSome || (matchTopRunScorerTeam line).isSome

/-- `_is_boundary`. -/
def is_boundary (line : String) : Bool :=
  is_heading line || STOP_WORDS.contains (lowerStr line)

/-! ## Line normalisation (`_lines`) -/

/-- `text.replace("\r\n", "\n")`. -/
def replaceCRLF : List Char → List Char
  | '\r' :: '\n' :: cs => '\n' :: replaceCRLF cs
  | c :: cs => c :: replaceCRLF cs
  | [] => []

/-- `.replace("\r", "\n")` (character-wise). -/
def crToNl (c : Char) : Char :=
  if c = '\r' then '\n' else c

/-- `.split("\n")`, keeping empty pieces. -/
def splitNl : List Char → List (List Char)
  | [] => [[]]
  | '\n' :: cs => [] :: splitNl cs
  | c :: cs =>
    match splitNl cs with
    | l :: ls => (c :: l) :: ls
    | [] => [[c]]

/-- `_lines`: normalise line endings, split, strip, drop blanks. -/
def pyLines (text : String) : List String :=
  ((splitNl ((replaceCRLF text.data).map crToNl)).map
    (fun l => pyStrip (String.mk l))).filter (fun l => l ≠ "")

/-! ## Block parser and market scanner -/

/-- One parsed selection: a row of the `parse_unibet` output frame. -/
structure Sel where
  market : String
  team : String
  name : String
  odds : String
deriving DecidableEq

/-- The scan loop of `_parse_block`, expressed structurally over the line
suffix starting at `start + 1`; the second component counts the lines
consumed before the boundary (or end).  `pending` is the single-slot name
buffer; Python's `if pending:` truthiness makes `some ""` behave like no
pending name. -/
def blockScan (market team : String) : Option String → List String → List Sel × Nat
  | _, [] => ([], 0)
  | pending, l :: rest =>
    let s := pyStrip l
    if is_boundary s then ([], 0)
    else if isDecimal s then
      match pending with
      | some p =>
        if p = "" then
          let r := blockScan market team (some p) rest
          (r.1, r.2 + 1)
        else
          let r := blockScan market team none rest
          (⟨market, team, p, s⟩ :: r.1, r.2 + 1)
      | none =>
        let r := blockScan market team none rest
        (r.1, r.2 + 1)
    else
      let r := blockScan market team (some s) rest
      (r.1, r.2 + 1)

/-- `_parse_block(lines, start, market, team)`: returns the emitted rows and
the index at which the scan stopped. -/
def parse_block (lines : List String) (start : Nat) (market team : String) : List Sel × Nat :=
  let r := blockScan market team none (lines.drop (start + 1))
  (r.1, start + 1 + r.2)

/-- The loop of `parse_unibet`: a single left-to-right pass, trying the three
heading patterns in fixed priority and resuming at the index returned by the
block parser.  The loop is given as structural recursion on a fuel argument;
since the cursor strictly increases on every step, `lines.length - i` units
of fuel always suffice (`marketScan_fuel_irrel` below), so the fuelled
function is the loop. -/
def marketScan (lines : List String) : Nat → Nat → List Sel
  | 0, _ => []
  | fuel + 1, i =>
    if h : i < lines.length then
      let s := lines.get ⟨i, h⟩
      if matchPOM s then
        let r := parse_block lines i "Player of the Match" ""
        r.1 ++ marketScan lines fuel r.2
      else
        match matchTopBowlerTeam s with
        | some team =>
          let r := parse_block lines i "Top Bowler" (pyStrip team)
          r.1 ++ marketScan lines fuel r.2
        | none =>
          match matchTopRunScorerTeam s with
          | some team =>
            let r := parse_block lines i "Top Batter" (pyStrip team)
            r.1 ++ marketScan lines fuel r.2
          | none => marketScan lines fuel (i + 1)
    else []

/-- `parse_unibet(text)`: the full parse (rows of the returned frame). -/
def parse_unibet (text : String) : List Sel :=
  marketScan (pyLines text) (pyLines text).length 0

/-! ## Team derivation (`detect_teams`) -/

/-- Lexicographic (code-point) order on strings, as Python compares them. -/
def lexLe : List Char → List Char → Bool
  | [], _ => true
  | _ :: _, [] => false
  | a :: as_, b :: bs =>
    if a.toNat < b.toNat then true
    else if b.toNat < a.toNat then false
    else lexLe as_ bs

/-- Stable insertion of a string into a sorted list. -/
def insertSorted (x : String) : List String → List String
  | [] => [x]
  | y :: ys => if lexLe x.data y.data then x :: y :: ys else y :: insertSorted x ys

/-- Python `sorted` on strings (insertion sort; stable, ascending). -/
def sortStrings (l : List String) : List String :=
  l.foldr insertSorted []

/-- `Series.unique()`: first-seen de-duplication. -/
def dedupFirstSeen (l : List String) : List String :=
  l.foldl (fun acc t => if t ∈ acc then acc else acc ++ [t]) []

/-- `detect_teams(parsed)`. -/
def detect_teams (parsed : List Sel) : List String :=
  let order := parsed.foldl
    (fun acc r =>
      if (r.market = "Top Bowler" ∨ r.market = "Top Batter") ∧ r.team ≠ "" ∧ r.team ∉ acc
      then acc ++ [r.team] else acc) []
  let order :=
    if order.length < 2 then
      let uniq := sortStrings ((dedupFirstSeen (parsed.map Sel.team)).filter (fun t => t ≠ ""))
      (uniq ++ ["—", "—"]).take 2
    else order
  order.take 2

/-! ## Boss helpers: frames, template index, row replication -/

/-- One frame row: ordered (column, value) pairs. -/
abbrev Row : Type := List (String × String)

/-- A pandas frame: column order plus rows (each row keyed by the columns). -/
structure Frame where
  cols : List String
  rows : List Row
deriving DecidableEq

/-- `Series.get(c, "")`: the value of column `c` in a row, defaulting to `""`. -/
def rowGet (r : Row) (c : String) : String :=
  match List.find? (fun p => p.1 == c) r with
  | some p => p.2
  | none => ""

/-- Overwrite the value of column `c` in a row (keys untouched). -/
def setRowVal (r : Row) (c v : String) : Row :=
  List.map (fun p => if p.1 == c then (p.1, v) else p) r

/-- `_norm_key`: lowercase then delete every character outside `[a-z0-9]`. -/
def norm_key (s : String) : String :=
  String.mk ((lowerStr s).data.filter lowerAlnum)

/-- The last column whose `_norm_key` equals `k` — the value the dict
comprehension `{_norm_key(c): c for c in df.columns}` stores at `k`
(later duplicates overwrite earlier ones). -/
def lastColWith (cols : List String) (k : String) : Option String :=
  match cols with
  | [] => none
  | c :: rest =>
    match lastColWith rest k with
    | some c2 => some c2
    | none => if norm_key c == k then some c else none

/-- `find_col(df, candidates)`: first candidate whose normalised key is a
key of the column dict; returns that dict entry. -/
def find_col (cols : List String) (cands : List String) : Option String :=
  match cands with
  | [] => none
  | cand :: rest =>
    match lastColWith cols (norm_key cand) with
    | some c => some c
    | none => find_col cols rest

/-- `_norm_space` (inside `build_template_map`): collapse whitespace runs,
strip, lowercase. -/
def norm_space (s : String) : String :=
  lowerStr (pyStrip (collapseWs s))

/-- The loop of `build_template_map`: first row wins per non-empty key. -/
def btmAux (col : String) (m : List (String × Row)) : List Row → List (String × Row)
  | [] => m
  | r :: rs =>
    let key := norm_space (rowGet r col)
    if key ≠ "" ∧ (List.lookup key m).isNone then btmAux col (m ++ [(key, r)]) rs
    else btmAux col m rs

/-- `build_template_map(boss, market_name_col)`. -/
def build_template_map (rows : List Row) (col : String) : List (String × Row) :=
  btmAux col [] rows

/-- `tpl_by_name` (Export handler): lookup under
`re.sub(r"\s+", " ", name.strip().lower())`. -/
def tpl_by_name (tmap : List (String × Row)) (name : String) : Option Row :=
  List.lookup (collapseWs (lowerStr (pyStrip name))) tmap

/-- Column assignment `df[c] = vals`: overwrite if the column exists,
otherwise append it (at the end of the column order). -/
def Frame.setCol (f : Frame) (c : String) (vals : List String) : Frame :=
  if f.cols.contains c then
    ⟨f.cols, (f.rows.zip vals).map (fun rv => setRowVal rv.1 c rv.2)⟩
  else
    ⟨f.cols ++ [c], (f.rows.zip vals).map (fun rv => rv.1 ++ [(c, rv.2)])⟩

/-- The `if col: base[col] = ""` step for one candidate set. -/
def Frame.blankCol (f : Frame) (cands : List String) : Frame :=
  match find_col f.cols cands with
  | some c => ⟨f.cols, f.rows.map (fun r => setRowVal r c "")⟩
  | none => f

/-- `base[outcols]`: column selection; raises `KeyError` (here `none`) if a
requested column is absent. -/
def selectCols (f : Frame) (outcols : List String) : Option (List Row) :=
  if outcols.all (fun c => f.cols.contains c) then
    some (f.rows.map (fun r => outcols.map (fun c => (c, rowGet r c))))
  else none

/-- `replicate_from_template(template, selections, outcols, sel_name_col,
sel_odds_col)`.  `DataFrame([template.to_dict()] * n)` has no columns at all
when `n = 0`, which is why the empty-selection case is modelled with an
empty column list. -/
def replicate_from_template (template : Row) (sels : List Sel) (outcols : List String)
    (selNameCol selOddsCol : String) : Option (List Row) :=
  let base : Frame :=
    ⟨if sels.isEmpty then [] else template.map Prod.fst, sels.map (fun _ => template)⟩
  let base := base.setCol selNameCol (sels.map Sel.name)
  let base := base.setCol selOddsCol (sels.map Sel.odds)
  let base := base.blankCol ["FirstOdds", "firstodds", "Firstodds"]
  let base := base.blankCol ["LastOdds", "lastodds", "Lastodds"]
  let base := base.blankCol ["AnyOdds", "anyodds", "Anyodds"]
  selectCols base outcols

/-! ## Export assembler and the two UI actions

The committed source is not even importable: lines 228–230 are a
mis-indented duplicate of the Top Batter template lookup (a Python
`IndentationError`).  After the minimal re-indent those three lines are dead
code, because line 239 recomputes `tbat_tpl` from scratch; what line 239
computes is `tpl_by_name(A) or tpl_by_name(B)`, and `or` evaluates
`bool(tpl_by_name(A))`, which raises `ValueError` ("The truth value of a
Series is ambiguous") whenever the first form resolves to a template row.
The embedding keeps that behaviour explicit via `pySeriesOr`. -/

/-- Python `a or b` where `a` is `None` or a `pandas.Series`: `None` is
falsy, while `bool(Series)` raises `ValueError`. -/
def pySeriesOr (a b : Option Row) : Except String (Option Row) :=
  match a with
  | some _ => Except.error "ValueError: The truth value of a Series is ambiguous"
  | none => Except.ok b

/-- One export pass: `if tpl is not None and not sel.empty: append rows else
append a note`.  A `KeyError` from the replication is an uncaught
exception. -/
def addPass (st : List (List Row) × List String) (tpl : Option Row) (sel : List Sel)
    (note : String) (outcols : List String) (nameCol oddsCol : String) :
    Except String (List (List Row) × List String) :=
  match tpl with
  | some t =>
    if sel.isEmpty then Except.ok (st.1, st.2 ++ [note])
    else
      match replicate_from_template t sel outcols nameCol oddsCol with
      | some rs => Except.ok (st.1 ++ [rs], st.2)
      | none => Except.error "KeyError: output columns missing from frame"
  | none => Except.ok (st.1, st.2 ++ [note])

/-- The per-team loop of the Export handler: a Top Bowler pass (lookup by
plain `if tpl is None` fallback) then a Top Batter pass (lookup via the
raising `or` chain of line 239). -/
def teamPasses (parsed : List Sel) (tmap : List (String × Row)) (outcols : List String)
    (nameCol oddsCol : String) :
    List String → List (List Row) × List String → Except String (List (List Row) × List String)
  | [], st => Except.ok st
  | team :: rest, st =>
    if team = "" then teamPasses parsed tmap outcols nameCol oddsCol rest st
    else
      let tbSel := parsed.filter (fun s => s.market == "Top Bowler" && s.team == team)
      let tbTpl :=
        match tpl_by_name tmap (team ++ " Top Bowler") with
        | some t => some t
        | none => tpl_by_name tmap ("Top Bowler - " ++ team ++ " - 1st Innings")
      match addPass st tbTpl tbSel ("Top Bowler — " ++ team ++ ": no template row or no selections.")
          outcols nameCol oddsCol with
      | Except.error e => Except.error e
      | Except.ok st =>
        let tbatSel := parsed.filter (fun s => s.market == "Top Batter" && s.team == team)
        match pySeriesOr (tpl_by_name tmap (team ++ " Top Batter"))
            (tpl_by_name tmap ("Top Batter - " ++ team ++ " - 1st Innings")) with
        | Except.error e => Except.error e
        | Except.ok tbatTpl =>
          match addPass st tbatTpl tbatSel
              ("Top Batter — " ++ team ++ ": no template row or no selections.")
              outcols nameCol oddsCol with
          | Except.error e => Except.error e
          | Except.ok st => teamPasses parsed tmap outcols nameCol oddsCol rest st

/-- The Export handler body after the state guard: Player of the Match pass,
then the two per-team passes for each derived team; zero successful passes
is a failure carrying the notes, otherwise the chunks are concatenated. -/
def export_run (parsed : List Sel) (tmap : List (String × Row)) (outcols : List String)
    (nameCol oddsCol : String) : Except String (List Row × List String) :=
  let potmSel := parsed.filter (fun s => s.market == "Player of the Match")
  let potmTpl := tpl_by_name tmap "Player of the Match"
  match addPass ([], []) potmTpl potmSel "Player of the Match: missing template row or no selections."
      outcols nameCol oddsCol with
  | Except.error e => Except.error e
  | Except.ok st =>
    match teamPasses parsed tmap outcols nameCol oddsCol (detect_teams parsed) st with
    | Except.error e => Except.error e
    | Except.ok st =>
      if st.1.isEmpty then
        Except.error ("No output built." ++
          (if st.2.isEmpty then "" else " " ++ String.intercalate "; " st.2))
      else Except.ok (st.1.flatten, st.2)

/-- `df.empty`: a frame with no rows or no columns. -/
def Frame.isEmpty (f : Frame) : Bool :=
  f.rows.isEmpty || f.cols.isEmpty

/-- The session fields set together by a successful Parse. -/
structure ParseState where
  boss : Frame
  parsed : List Sel
  tmap : List (String × Row)
  outcols : List String
  selNameCol : String
  selOddsCol : String
  marketNameCol : String
deriving DecidableEq

/-- The Parse click handler: precondition checks, then a wholesale state
replacement.  Returns the (possibly unchanged) state and the error
reported, if any. -/
def parse_action (upload : Option Frame) (text : String) (st : Option ParseState) :
    Option ParseState × Option String :=
  match upload with
  | none => (st, some "Upload a Boss export first.")
  | some boss =>
    if boss.isEmpty then (st, some "Uploaded Boss file is empty or unsupported.")
    else
      match find_col boss.cols ["MarketName", "marketname"],
          find_col boss.cols ["SelectionName", "selectionname", "Selection", "Runner", "Name"],
          find_col boss.cols ["SelectionOdds", "selectionodds", "Odds", "Price", "DecimalOdds"] with
      | some mc, some nc, some oc =>
        let parsed := parse_unibet text
        if parsed.isEmpty then (st, some "No selections parsed from Unibet text.")
        else
          (some ⟨boss, parsed, build_template_map boss.rows mc, boss.cols, nc, oc, mc⟩, none)
      | _, _, _ =>
        (st, some "Boss file must contain columns for MarketName, SelectionName and SelectionOdds.")

/-- The Export click handler: fail fast unless a Parse has succeeded. -/
def export_action (st : Option ParseState) : Except String (List Row × List String) :=
  match st with
  | none => Except.error "Click Parse first."
  | some s => export_run s.parsed s.tmap s.outcols s.selNameCol s.selOddsCol

/-! ## Auxiliary definitions used only to state theorems -/

/-- The first template row (in table order) whose normalised market name is
`k`: what first-wins duplicate handling must produce. -/
def firstTplRow (rows : List Row) (col : String) (k : String) : Option Row :=
  rows.find? (fun r => norm_space (rowGet r col) == k)

/-- The normalised keys of the recognised first/last/any-odds column
variants. -/
def isOddsVariantKey (k : String) : Bool :=
  k == "firstodds" || k == "lastodds" || k == "anyodds"

/-- The per-selection row before blanking: template with the selection name
and odds written into their columns. -/
def replRow (template : Row) (nameCol oddsCol : String) (s : Sel) : Row :=
  setRowVal (setRowVal template nameCol s.name) oddsCol s.odds

/-- One `if col: base[col] = ""` step at row level. -/
def blankOne (cols : List String) (cands : List String) (r : Row) : Row :=
  match find_col cols cands with
  | some c => setRowVal r c ""
  | none => r

/-- All three first/last/any-odds blanking steps, in source order. -/
def blankAll (cols : List String) (r : Row) : Row :=
  blankOne cols ["AnyOdds", "anyodds", "Anyodds"]
    (blankOne cols ["LastOdds", "lastodds", "Lastodds"]
      (blankOne cols ["FirstOdds", "firstodds", "Firstodds"] r))

/-- A well-formed (name line, decimal line) pair as they appear in a block:
already stripped (the scanner receives stripped lines), the name neither a
boundary nor decimal-shaped and non-blank, the odds decimal-shaped and not a
boundary. -/
def wellFormedPair (p : String × String) : Prop :=
  pyStrip p.1 = p.1 ∧ pyStrip p.2 = p.2 ∧ is_boundary p.1 = false ∧ isDecimal p.1 = false ∧
    p.1 ≠ "" ∧ isDecimal p.2 = true ∧ is_boundary p.2 = false

instance (p : String × String) : Decidable (wellFormedPair p) := by
  unfold wellFormedPair
  infer_instance

/-- The two lines a pair contributes to the block. -/
def pairLines (p : String × String) : List String :=
  [p.1, p.2]

/-! ## Block parser lemmas -/

/-- Number of lines consumed never exceeds the suffix length. -/
theorem blockScan_count_le (market team : String) :
    ∀ (pending : Option String) (ls : List String),
      (blockScan market team pending ls).2 ≤ ls.length := by
  intro pending ls
  induction ls generalizing pending with
  | nil => simp [blockScan]
  | cons l rest ih =>
    simp only [blockScan]
    split
    · simp
    · split
      · split
        · split
          · simpa using Nat.succ_le_succ (ih _)
          · simpa using Nat.succ_le_succ (ih _)
        · simpa using Nat.succ_le_succ (ih _)
      · simpa using Nat.succ_le_succ (ih _)

/-- The block parser's stop index is strictly beyond the heading index. -/
theorem parse_block_lt (lines : List String) (start : Nat) (market team : String) :
    start < (parse_block lines start market team).2 := by
  simp only [parse_block]
  omega

/-- Any fuel of at least `lines.length - i` gives the same scan result: the
fuelled recursion is the source's while-loop. -/
theorem marketScan_fuel_irrel (lines : List String) :
    ∀ (f1 f2 i : Nat), lines.length - i ≤ f1 → lines.length - i ≤ f2 →
      marketScan lines f1 i = marketScan lines f2 i := by
  intro f1
  induction f1 with
  | zero =>
    intro f2 i h1 h2
    have hi : ¬ i < lines.length := by omega
    cases f2 with
    | zero => rfl
    | succ f2 => simp [marketScan, hi]
  | succ f1 ih =>
    intro f2 i h1 h2
    by_cases hi : i < lines.length
    · cases f2 with
      | zero => omega
      | succ f2 =>
        have hblock : ∀ m t, lines.length - (parse_block lines i m t).2 ≤ f1 ∧
            lines.length - (parse_block lines i m t).2 ≤ f2 := by
          intro m t
          have := parse_block_lt lines i m t
          omega
        simp only [marketScan, hi, dif_pos]
        split
        · rw [ih _ _ (hblock _ _).1 (hblock _ _).2]
        · split
          · rw [ih _ _ (hblock _ _).1 (hblock _ _).2]
          · split
            · rw [ih _ _ (hblock _ _).1 (hblock _ _).2]
            · rw [ih f2 (i + 1) (by omega) (by omega)]
    · cases f2 with
      | zero => simp [marketScan, hi]
      | succ f2 => simp [marketScan, hi]

theorem blockScan_nil (m t : String) (p : Option String) : blockScan m t p [] = ([], 0) :=
  rfl

theorem blockScan_boundary (m t l : String) (p : Option String) (rest : List String)
    (hb : is_boundary (pyStrip l) = true) : blockScan m t p (l :: rest) = ([], 0) := by
  cases p <;> simp [blockScan, hb]

theorem blockScan_name (m t l : String) (p : Option String) (rest : List String)
    (hb : is_boundary (pyStrip l) = false) (hd : isDecimal (pyStrip l) = false) :
    blockScan m t p (l :: rest) =
      ((blockScan m t (some (pyStrip l)) rest).1, (blockScan m t (some (pyStrip l)) rest).2 + 1) := by
  cases p <;> simp [blockScan, hb, hd]

theorem blockScan_dec_none (m t l : String) (rest : List String)
    (hb : is_boundary (pyStrip l) = false) (hd : isDecimal (pyStrip l) = true) :
    blockScan m t none (l :: rest) =
      ((blockScan m t none rest).1, (blockScan m t none rest).2 + 1) := by
  simp [blockScan, hb, hd]

theorem blockScan_dec_some (m t l p : String) (rest : List String)
    (hb : is_boundary (pyStrip l) = false) (hd : isDecimal (pyStrip l) = true) (hp : p ≠ "") :
    blockScan m t (some p) (l :: rest) =
      (⟨m, t, p, pyStrip l⟩ :: (blockScan m t none rest).1, (blockScan m t none rest).2 + 1) := by
  simp [blockScan, hb, hd, hp]

theorem length_flatMap_pairLines (pairs : List (String × String)) :
    (pairs.flatMap pairLines).length = 2 * pairs.length := by
  induction pairs with
  | nil => rfl
  | cons p ps ih => simp [pairLines, ih]; omega

theorem blockScan_pairs (m t : String) :
    ∀ (pairs : List (String × String)) (rest : List String),
      (∀ p ∈ pairs, wellFormedPair p) →
      (rest = [] ∨ ∃ b bs, rest = b :: bs ∧ is_boundary (pyStrip b) = true) →
      blockScan m t none (pairs.flatMap pairLines ++ rest) =
        (pairs.map (fun p => ⟨m, t, p.1, p.2⟩), 2 * pairs.length) := by
  intro pairs
  induction pairs with
  | nil =>
    intro rest _ hrest
    rcases hrest with h | ⟨b, bs, hb, hbb⟩
    · simp [h, blockScan_nil]
    · simp [hb, blockScan_boundary m t b none bs hbb]
  | cons p ps ih =>
    intro rest hpairs hrest
    obtain ⟨h1, h2, h3, h4, h5, h6, h7⟩ := hpairs p (by simp)
    have hps : ∀ q ∈ ps, wellFormedPair q := fun q hq => hpairs q (by simp [hq])
    have e1 : pyStrip p.1 = p.1 := h1
    have e2 : pyStrip p.2 = p.2 := h2
    simp only [List.flatMap_cons, pairLines, List.cons_append, List.append_assoc, List.nil_append]
    rw [blockScan_name m t p.1 none _ (by rw [e1]; exact h3) (by rw [e1]; exact h4), e1]
    rw [blockScan_dec_some m t p.2 p.1 _ (by rw [e2]; exact h7) (by rw [e2]; exact h6) h5, e2]
    rw [ih rest hps hrest]
    simp
    omega

/-- Claim C1: with a heading at `start` followed by `N` well-formed
(name, decimal) pairs and then a boundary (or the end of input), the block
parser emits exactly the `N` selections in encounter order, pairing each
name with the decimal that follows it, and stops at the boundary index
(equal to the input length when the block runs to the end). -/
theorem spec_c1_block_emits_all_pairs (lines : List String) (start : Nat) (market team : String)
    (pairs : List (String × String)) (rest : List String)
    (hstart : start + 1 ≤ lines.length)
    (hdrop : lines.drop (start + 1) = pairs.flatMap pairLines ++ rest)
    (hpairs : ∀ p ∈ pairs, wellFormedPair p)
    (hrest : rest = [] ∨ ∃ b bs, rest = b :: bs ∧ is_boundary (pyStrip b) = true) :
    parse_block lines start market team =
      (pairs.map (fun p => ⟨market, team, p.1, p.2⟩), start + 1 + 2 * pairs.length) ∧
      (rest = [] → start + 1 + 2 * pairs.length = lines.length) := by
  constructor
  · simp only [parse_block, hdrop]
    rw [blockScan_pairs market team pairs rest hpairs hrest]
  · intro hnil
    have hlen : (lines.drop (start + 1)).length = lines.length - (start + 1) := by
      simp
    rw [hdrop, hnil] at hlen
    simp only [List.append_nil, length_flatMap_pairLines] at hlen
    omega

/-- Witness for C1 at a concrete two-pair block terminated by a stop word. -/
theorem spec_c1_block_emits_all_pairs_witness :
    parse_block ["Player of the Match", "Virat Kohli", "2.5", "Joe Root", "3.0", "view more"]
        0 "Player of the Match" "" =
      ([⟨"Player of the Match", "", "Virat Kohli", "2.5"⟩,
        ⟨"Player of the Match", "", "Joe Root", "3.0"⟩], 5) :=
  (spec_c1_block_emits_all_pairs
    ["Player of the Match", "Virat Kohli", "2.5", "Joe Root", "3.0", "view more"] 0
    "Player of the Match" "" [("Virat Kohli", "2.5"), ("Joe Root", "3.0")] ["view more"]
    (by decide) (by decide) (by decide)
    (Or.inr ⟨"view more", [], rfl, by decide⟩)).1

/-- Claim C2: the pending-name buffer holds at most one name.  A decimal
line arriving with no pending name emits nothing and the scan continues;
a non-decimal, non-boundary line overwrites whatever name was pending. -/
theorem spec_c2_pending_buffer :
    (∀ (m t d : String) (rest : List String),
      is_boundary (pyStrip d) = false → isDecimal (pyStrip d) = true →
      blockScan m t none (d :: rest) =
        ((blockScan m t none rest).1, (blockScan m t none rest).2 + 1)) ∧
    (∀ (m t l : String) (pending : Option String) (rest : List String),
      is_boundary (pyStrip l) = false → isDecimal (pyStrip l) = false →
      blockScan m t pending (l :: rest) =
        ((blockScan m t (some (pyStrip l)) rest).1,
         (blockScan m t (some (pyStrip l)) rest).2 + 1)) := by
  constructor
  · intro m t d rest hb hd
    exact blockScan_dec_none m t d rest hb hd
  · intro m t l pending rest hb hd
    exact blockScan_name m t l pending rest hb hd

/-- Witness for C2: an orphan decimal is dropped without stopping the scan,
and a second name overwrites the first (which is silently discarded). -/
theorem spec_c2_pending_buffer_witness :
    blockScan "M" "" none ["2.5", "Virat Kohli", "3.0"] =
      ([⟨"M", "", "Virat Kohli", "3.0"⟩], 3) ∧
    blockScan "M" "" (some "Joe Root") ["Virat Kohli", "3.0"] =
      ([⟨"M", "", "Virat Kohli", "3.0"⟩], 2) := by
  constructor
  · rw [spec_c2_pending_buffer.1 "M" "" "2.5" ["Virat Kohli", "3.0"] (by decide) (by decide)]
    decide
  · rw [spec_c2_pending_buffer.2 "M" "" "Virat Kohli" (some "Joe Root") ["3.0"]
      (by decide) (by decide)]
    decide

/-- Counterexample to C10 as stated: with the start index at (or past) the
end of the line sequence, the returned stop index exceeds the sequence
length. -/
theorem spec_c10_counterexample :
    ¬ ((parse_block ([] : List String) 0 "Market" "Team").2 ≤ ([] : List String).length) := by
  decide

/-! ## Market/team tagging of emitted selections -/

theorem blockScan_mem_market_team (m t : String) :
    ∀ (pending : Option String) (ls : List String) (s : Sel),
      s ∈ (blockScan m t pending ls).1 → s.market = m ∧ s.team = t := by
  intro pending ls
  induction ls generalizing pending with
  | nil => intro s hs; simp [blockScan] at hs
  | cons l rest ih =>
    intro s hs
    simp only [blockScan] at hs
    split at hs
    · simp at hs
    · split at hs
      · split at hs
        · split at hs
          · exact ih _ s (by simpa using hs)
          · rcases (by simpa using hs : s = ⟨m, t, _, _⟩ ∨ _) with h | h
            · subst h; exact ⟨rfl, rfl⟩
            · exact ih _ s h
        · exact ih _ s (by simpa using hs)
      · exact ih _ s (by simpa using hs)

theorem marketScan_mem (lines : List String) :
    ∀ (fuel i : Nat) (s : Sel), s ∈ marketScan lines fuel i →
      (s.market = "Player of the Match" ∧ s.team = "") ∨
        s.market = "Top Bowler" ∨ s.market = "Top Batter" := by
  intro fuel
  induction fuel with
  | zero => intro i s hs; simp [marketScan] at hs
  | succ fuel ih =>
    intro i s hs
    simp only [marketScan] at hs
    split at hs
    · split at hs
      · rcases List.mem_append.mp hs with h | h
        · exact Or.inl (blockScan_mem_market_team _ _ _ _ s h)
        · exact ih _ s h
      · split at hs
        · rcases List.mem_append.mp hs with h | h
          · exact Or.inr (Or.inl (blockScan_mem_market_team _ _ _ _ s h).1)
          · exact ih _ s h
        · split at hs
          · rcases List.mem_append.mp hs with h | h
            · exact Or.inr (Or.inr (blockScan_mem_market_team _ _ _ _ s h).1)
            · exact ih _ s h
          · exact ih _ s hs
    · simp at hs

/-- Counterexample to C9 as stated: a Top Bowler heading whose team segment
is blank (`Top Bowler - - 1st Innings`) yields a selection tagged
`Top Bowler` with an empty Team. -/
theorem spec_c9_counterexample :
    parse_unibet "Top Bowler - - 1st Innings\nAhmed\n2.0" =
        [⟨"Top Bowler", "", "Ahmed", "2.0"⟩] ∧
      ("Top Bowler" : String) ≠ "Player of the Match" := by
  constructor
  · decide
  · decide

/-- Claim C9 (amended): every Player of the Match selection has an empty
Team, and every selection carries one of the three market tags; Top
Bowler/Top Batter selections carry the stripped captured team text, which
can itself be empty when the heading's team segment is blank. -/
theorem spec_c9_potm_team_empty (text : String) :
    ∀ s ∈ parse_unibet text,
      (s.market = "Player of the Match" → s.team = "") ∧
        (s.market = "Player of the Match" ∨ s.market = "Top Bowler" ∨
          s.market = "Top Batter") := by
  intro s hs
  rcases marketScan_mem (pyLines text) (pyLines text).length 0 s hs with ⟨h1, h2⟩ | h | h
  · exact ⟨fun _ => h2, Or.inl h1⟩
  · refine ⟨fun hp => ?_, Or.inr (Or.inl h)⟩
    rw [h] at hp
    exact absurd hp (by decide)
  · refine ⟨fun hp => ?_, Or.inr (Or.inr h)⟩
    rw [h] at hp
    exact absurd hp (by decide)

/-- Witness for C9 (amended) at a concrete Player of the Match block. -/
theorem spec_c9_potm_team_empty_witness :
    (Sel.mk "Player of the Match" "" "Virat Kohli" "2.5").team = "" :=
  (spec_c9_potm_team_empty "Player of the Match\nVirat Kohli\n2.5"
    ⟨"Player of the Match", "", "Virat Kohli", "2.5"⟩ (by decide)).1 rfl

/-- Claim C10 (amended): the stop index strictly exceeds the start index and
is at most `max (start + 1) lines.length`; in particular it is within the
sequence length whenever the start index is (so the scanner's cursor
strictly increases and the parse terminates). -/
theorem spec_c10_cursor_advances (lines : List String) (start : Nat) (market team : String) :
    start < (parse_block lines start market team).2 ∧
      (parse_block lines start market team).2 ≤ max (start + 1) lines.length := by
  have hk := blockScan_count_le market team none (lines.drop (start + 1))
  simp only [parse_block, List.length_drop] at *
  omega

/-! ## Whitespace/lowercase normalisation: the Export key agrees with the index key -/

theorem pySpace_space : pySpace ' ' = true := by decide

theorem toNat_ofNat_valid (n : Nat) (h1 : n < 55296) : (Char.ofNat n).toNat = n := by
  rw [Char.ofNat, dif_pos (Or.inl (by exact_mod_cast h1))]
  simp [Char.ofNatAux, Char.toNat, UInt32.ofNat', UInt32.toNat]

theorem pySpace_toLower (c : Char) : pySpace (Char.toLower c) = pySpace c := by
  unfold Char.toLower
  simp only []
  by_cases h : c.toNat ≥ 65 ∧ c.toNat ≤ 90
  · rw [if_pos h]
    have h2 : (Char.ofNat (c.toNat + 32)).toNat = c.toNat + 32 :=
      toNat_ofNat_valid _ (by omega)
    have hc1 : c.toNat ≥ 65 := h.1
    have hc2 : c.toNat ≤ 90 := h.2
    simp only [pySpace, h2]
    rw [Bool.eq_iff_iff]
    simp only [Bool.or_eq_true, decide_eq_true_eq]
    omega
  · rw [if_neg h]

theorem dropWs_map_lower (l : List Char) :
    dropWs (l.map Char.toLower) = (dropWs l).map Char.toLower := by
  induction l with
  | nil => rfl
  | cons c cs ih =>
    simp only [List.map_cons, dropWs, pySpace_toLower]
    rcases Bool.eq_false_or_eq_true (pySpace c) with h | h
    · simp [h, ih]
    · simp [h]

theorem dropTrailWs_map_lower (l : List Char) :
    dropTrailWs (l.map Char.toLower) = (dropTrailWs l).map Char.toLower := by
  induction l with
  | nil => rfl
  | cons c cs ih =>
    simp only [List.map_cons, dropTrailWs, ih]
    cases hcs : dropTrailWs cs with
    | nil =>
      simp only [List.map_nil, pySpace_toLower]
      rcases Bool.eq_false_or_eq_true (pySpace c) with h | h
      · simp [h]
      · simp [h]
    | cons r rs => simp

theorem collapse_cons_nonws (c : Char) (l : List Char) (h : pySpace c = false) :
    collapseWsAux (c :: l) = c :: collapseWsAux l := by
  cases l with
  | nil => simp [collapseWsAux, h]
  | cons d ds => simp [collapseWsAux, h]

theorem collapse_ne_nil (l : List Char) (h : l ≠ []) : collapseWsAux l ≠ [] := by
  induction l with
  | nil => exact absurd rfl h
  | cons c cs ih =>
    cases cs with
    | nil =>
      rcases Bool.eq_false_or_eq_true (pySpace c) with hc | hc
      · simp [collapseWsAux, hc]
      · simp [collapseWsAux, hc]
    | cons d ds =>
      rcases Bool.eq_false_or_eq_true (pySpace c) with hc | hc
      · rcases Bool.eq_false_or_eq_true (pySpace d) with hd | hd
        · simp only [collapseWsAux, hc, hd, Bool.and_self, if_true]
          exact ih (by simp)
        · simp only [collapseWsAux, hc, hd, Bool.and_false, Bool.false_eq_true, if_false]
          simp
      · rw [collapse_cons_nonws c (d :: ds) hc]
        simp

theorem collapse_map_lower (l : List Char) :
    collapseWsAux (l.map Char.toLower) = (collapseWsAux l).map Char.toLower := by
  induction l with
  | nil => rfl
  | cons c cs ih =>
    cases cs with
    | nil =>
      simp only [List.map_cons, List.map_nil, collapseWsAux, pySpace_toLower]
      rcases Bool.eq_false_or_eq_true (pySpace c) with h | h
      · simp [h]
      · simp [h]
    | cons d ds =>
      simp only [List.map_cons] at ih ⊢
      simp only [collapseWsAux, pySpace_toLower, ih]
      rcases Bool.eq_false_or_eq_true (pySpace c) with h | h
      · rcases Bool.eq_false_or_eq_true (pySpace d) with h2 | h2
        · simp [h, h2]
        · simp [h, h2]
      · simp [h]

theorem collapse_dropWs (l : List Char) :
    collapseWsAux (dropWs l) = dropWs (collapseWsAux l) := by
  induction l with
  | nil => rfl
  | cons c cs ih =>
    cases cs with
    | nil =>
      rcases Bool.eq_false_or_eq_true (pySpace c) with h | h
      · simp [dropWs, collapseWsAux, h, pySpace_space]
      · simp [dropWs, collapseWsAux, h]
    | cons d ds =>
      rcases Bool.eq_false_or_eq_true (pySpace c) with hc | hc
      · rcases Bool.eq_false_or_eq_true (pySpace d) with hd | hd
        · rw [show dropWs (c :: d :: ds) = dropWs (d :: ds) by simp [dropWs, hc]]
          rw [ih]
          rw [show collapseWsAux (c :: d :: ds) = collapseWsAux (d :: ds) by
            simp [collapseWsAux, hc, hd]]
        · rw [show dropWs (c :: d :: ds) = d :: ds by simp [dropWs, hc, hd]]
          rw [show collapseWsAux (c :: d :: ds) = ' ' :: collapseWsAux (d :: ds) by
            simp [collapseWsAux, hc, hd]]
          rw [show dropWs (' ' :: collapseWsAux (d :: ds)) = dropWs (collapseWsAux (d :: ds)) by
            simp [dropWs, pySpace_space]]
          rw [collapse_cons_nonws d ds hd]
          simp [dropWs, hd]
      · rw [show dropWs (c :: d :: ds) = c :: d :: ds by simp [dropWs, hc]]
        rw [collapse_cons_nonws c (d :: ds) hc]
        simp [dropWs, hc]

theorem dropTrailWs_cons (c : Char) (cs : List Char) :
    dropTrailWs (c :: cs) =
      match dropTrailWs cs with
      | [] => if pySpace c then [] else [c]
      | r => c :: r := rfl

theorem dropTrailWs_cons_nil (c : Char) (cs : List Char) (h : dropTrailWs cs = []) :
    dropTrailWs (c :: cs) = if pySpace c then [] else [c] := by
  rw [dropTrailWs_cons, h]

theorem dropTrailWs_cons_cons (c : Char) (cs : List Char) (r : Char) (rs : List Char)
    (h : dropTrailWs cs = r :: rs) :
    dropTrailWs (c :: cs) = c :: r :: rs := by
  rw [dropTrailWs_cons, h]

theorem dropTrailWs_cons_shape (d : Char) (ds : List Char) (h : dropTrailWs (d :: ds) ≠ []) :
    ∃ r, dropTrailWs (d :: ds) = d :: r := by
  cases hds : dropTrailWs ds with
  | nil =>
    rw [dropTrailWs_cons_nil d ds hds] at h ⊢
    rcases Bool.eq_false_or_eq_true (pySpace d) with hd | hd
    · rw [if_pos hd] at h
      exact absurd rfl h
    · rw [if_neg (by simp [hd])]
      exact ⟨[], rfl⟩
  | cons r rs =>
    rw [dropTrailWs_cons_cons d ds r rs hds]
    exact ⟨r :: rs, rfl⟩

theorem collapse_pair_ws (c d : Char) (l : List Char) (hc : pySpace c = true)
    (hd : pySpace d = true) : collapseWsAux (c :: d :: l) = collapseWsAux (d :: l) := by
  simp [collapseWsAux, hc, hd]

theorem collapse_pair_mixed (c d : Char) (l : List Char) (hc : pySpace c = true)
    (hd : pySpace d = false) : collapseWsAux (c :: d :: l) = ' ' :: collapseWsAux (d :: l) := by
  simp [collapseWsAux, hc, hd]

theorem collapse_dropTrail (l : List Char) :
    collapseWsAux (dropTrailWs l) = dropTrailWs (collapseWsAux l) := by
  induction l with
  | nil => rfl
  | cons c cs ih =>
    cases cs with
    | nil =>
      rcases Bool.eq_false_or_eq_true (pySpace c) with h | h
      · simp [dropTrailWs, collapseWsAux, h, pySpace_space]
      · simp [dropTrailWs, collapseWsAux, h]
    | cons d ds =>
      cases hT : dropTrailWs (d :: ds) with
      | nil =>
        have hC : dropTrailWs (collapseWsAux (d :: ds)) = [] := by
          rw [← ih, hT]
          rfl
        rw [dropTrailWs_cons_nil c (d :: ds) hT]
        rcases Bool.eq_false_or_eq_true (pySpace c) with hc | hc
        · rcases Bool.eq_false_or_eq_true (pySpace d) with hd | hd
          · rw [collapse_pair_ws c d ds hc hd, hC, if_pos hc]
            rfl
          · rw [collapse_pair_mixed c d ds hc hd,
              dropTrailWs_cons_nil ' ' _ hC, if_pos hc, if_pos pySpace_space]
            rfl
        · rw [collapse_cons_nonws c (d :: ds) hc, dropTrailWs_cons_nil c _ hC,
            if_neg (by simp [hc])]
          simp [collapseWsAux, hc]
      | cons r0 rs0 =>
        have hTne : dropTrailWs (d :: ds) ≠ [] := by rw [hT]; simp
        obtain ⟨r, hr⟩ := dropTrailWs_cons_shape d ds hTne
        have hCe : dropTrailWs (collapseWsAux (d :: ds)) = collapseWsAux (d :: r) := by
          rw [← ih, hr]
        have hCne : dropTrailWs (collapseWsAux (d :: ds)) ≠ [] := by
          rw [hCe]
          exact collapse_ne_nil _ (by simp)
        rw [dropTrailWs_cons_cons c (d :: ds) r0 rs0 hT, ← hT, hr]
        rcases Bool.eq_false_or_eq_true (pySpace c) with hc | hc
        · rcases Bool.eq_false_or_eq_true (pySpace d) with hd | hd
          · rw [collapse_pair_ws c d r hc hd, collapse_pair_ws c d ds hc hd, ← hCe]
          · rw [collapse_pair_mixed c d r hc hd, collapse_pair_mixed c d ds hc hd]
            cases hE : dropTrailWs (collapseWsAux (d :: ds)) with
            | nil => exact absurd hE hCne
            | cons e es =>
              rw [dropTrailWs_cons_cons ' ' _ e es hE, ← hE, hCe]
        · rw [collapse_cons_nonws c (d :: r) hc, collapse_cons_nonws c (d :: ds) hc]
          cases hE : dropTrailWs (collapseWsAux (d :: ds)) with
          | nil => exact absurd hE hCne
          | cons e es =>
            rw [dropTrailWs_cons_cons c _ e es hE, ← hE, hCe]

theorem strip_lower_collapse_key (l : List Char) :
    collapseWsAux ((dropWs (dropTrailWs l)).map Char.toLower) =
      (dropWs (dropTrailWs (collapseWsAux l))).map Char.toLower := by
  calc collapseWsAux ((dropWs (dropTrailWs l)).map Char.toLower)
      = collapseWsAux (dropWs ((dropTrailWs l).map Char.toLower)) := by rw [dropWs_map_lower]
    _ = collapseWsAux (dropWs (dropTrailWs (l.map Char.toLower))) := by
        rw [dropTrailWs_map_lower]
    _ = dropWs (collapseWsAux (dropTrailWs (l.map Char.toLower))) := collapse_dropWs _
    _ = dropWs (dropTrailWs (collapseWsAux (l.map Char.toLower))) := by rw [collapse_dropTrail]
    _ = dropWs (dropTrailWs ((collapseWsAux l).map Char.toLower)) := by rw [collapse_map_lower]
    _ = dropWs ((dropTrailWs (collapseWsAux l)).map Char.toLower) := by
        rw [dropTrailWs_map_lower]
    _ = (dropWs (dropTrailWs (collapseWsAux l))).map Char.toLower := by rw [dropWs_map_lower]

/-- The Export handler's lookup key `re.sub(r"\s+", " ", name.strip().lower())`
equals the Template Index's `_norm_space` key (collapse, strip, lower):
the two normalisations written in the source agree on every string. -/
theorem tpl_key_eq_norm_space (s : String) :
    collapseWs (lowerStr (pyStrip s)) = norm_space s :=
  congrArg String.mk (strip_lower_collapse_key s.data)

/-! ## Template index: first-wins lookup -/

/-! ## Template index: first-wins lookup -/

theorem lookup_append_single (m : List (String × Row)) (k key : String) (r : Row) :
    List.lookup k (m ++ [(key, r)]) =
      match List.lookup k m with
      | some v => some v
      | none => if k == key then some r else none := by
  induction m with
  | nil =>
    simp only [List.nil_append, List.lookup]
    cases h : k == key <;> simp [h]
  | cons p ps ih =>
    by_cases hk : k == p.1
    · simp [List.lookup, hk]
    · simp only [List.cons_append, List.lookup, hk]
      exact ih

theorem firstTplRow_cons (r : Row) (rs : List Row) (col k : String) :
    firstTplRow (r :: rs) col k =
      if norm_space (rowGet r col) == k then some r else firstTplRow rs col k := by
  simp only [firstTplRow, List.find?]
  by_cases h : norm_space (rowGet r col) == k
  · simp [h]
  · simp [h]

theorem btmAux_lookup (col : String) :
    ∀ (rows : List Row) (m : List (String × Row)) (k : String), k ≠ "" →
      List.lookup k (btmAux col m rows) =
        match List.lookup k m with
        | some v => some v
        | none => firstTplRow rows col k := by
  intro rows
  induction rows with
  | nil =>
    intro m k _
    simp only [btmAux, firstTplRow, List.find?_nil]
    cases List.lookup k m <;> rfl
  | cons r rs ih =>
    intro m k hk
    rw [show btmAux col m (r :: rs) =
      (if norm_space (rowGet r col) ≠ "" ∧ (List.lookup (norm_space (rowGet r col)) m).isNone
       then btmAux col (m ++ [(norm_space (rowGet r col), r)]) rs
       else btmAux col m rs) from rfl]
    rw [firstTplRow_cons]
    by_cases hcond : norm_space (rowGet r col) ≠ "" ∧
        (List.lookup (norm_space (rowGet r col)) m).isNone
    · rw [if_pos hcond]
      rw [ih _ k hk, lookup_append_single]
      by_cases hkk : k = norm_space (rowGet r col)
      · have hnone : List.lookup k m = none := by
          rw [hkk]
          exact Option.isNone_iff_eq_none.mp hcond.2
        rw [hnone]
        have hb1 : (k == norm_space (rowGet r col)) = true := beq_iff_eq.mpr hkk
        have hb2 : (norm_space (rowGet r col) == k) = true := beq_iff_eq.mpr hkk.symm
        rw [hb1, hb2]
        rfl
      · have hb1 : (k == norm_space (rowGet r col)) = false :=
          beq_eq_false_iff_ne.mpr hkk
        have hb2 : (norm_space (rowGet r col) == k) = false :=
          beq_eq_false_iff_ne.mpr (fun h => hkk h.symm)
        rw [hb1, hb2]
        cases hm : List.lookup k m with
        | some v => rfl
        | none => rfl
    · rw [if_neg hcond]
      rw [ih _ k hk]
      cases hm : List.lookup k m with
      | some v => rfl
      | none =>
        have hne : (norm_space (rowGet r col) == k) = false := by
          rw [beq_eq_false_iff_ne]
          intro hek
          rcases Decidable.not_and_iff_or_not.mp hcond with h1 | h1
          · have hA : norm_space (rowGet r col) = "" := Decidable.not_not.mp h1
            exact hk (by rw [← hek]; exact hA)
          · rw [Option.isNone_iff_eq_none] at h1
            rw [hek, hm] at h1
            exact h1 rfl
        rw [hne]
        rfl

/-- Claim C3: the Template Index maps each whitespace-collapsed, trimmed,
lowercased market name to the first template row bearing it (later
duplicates ignored), and lookups through the Export handler's key
normalisation agree on any two strings with the same normalised form. -/
theorem spec_c3_template_index (rows : List Row) (col : String) :
    (∀ k, k ≠ "" →
      List.lookup k (build_template_map rows col) = firstTplRow rows col k) ∧
    (∀ s t, norm_space s = norm_space t →
      tpl_by_name (build_template_map rows col) s =
        tpl_by_name (build_template_map rows col) t) := by
  constructor
  · intro k hk
    rw [build_template_map, btmAux_lookup col rows [] k hk]
    rfl
  · intro s t hst
    simp only [tpl_by_name, tpl_key_eq_norm_space, hst]

/-- Witness for C3: duplicate normalised keys resolve to the first row, and
lookups differing only in case and internal whitespace agree. -/
theorem spec_c3_template_index_witness :
    List.lookup "top bowler x"
        (build_template_map
          [[("MarketName", "Top  Bowler X"), ("MarketID", "1")],
           [("MarketName", "top bowler x"), ("MarketID", "2")]] "MarketName") =
      some [("MarketName", "Top  Bowler X"), ("MarketID", "1")] ∧
    tpl_by_name
        (build_template_map
          [[("MarketName", "Top  Bowler X"), ("MarketID", "1")],
           [("MarketName", "top bowler x"), ("MarketID", "2")]] "MarketName")
        " TOP  BOWLER x " =
      tpl_by_name
        (build_template_map
          [[("MarketName", "Top  Bowler X"), ("MarketID", "1")],
           [("MarketName", "top bowler x"), ("MarketID", "2")]] "MarketName")
        "top bowler x" := by
  constructor
  · rw [(spec_c3_template_index
      [[("MarketName", "Top  Bowler X"), ("MarketID", "1")],
       [("MarketName", "top bowler x"), ("MarketID", "2")]] "MarketName").1
      "top bowler x" (by decide)]
    decide
  · exact (spec_c3_template_index
      [[("MarketName", "Top  Bowler X"), ("MarketID", "1")],
       [("MarketName", "top bowler x"), ("MarketID", "2")]] "MarketName").2
      " TOP  BOWLER x " "top bowler x" (by decide)

/-! ## Row replication: pointwise lemmas -/

theorem keys_setRowVal (r : Row) (c v : String) :
    (setRowVal r c v).map Prod.fst = r.map Prod.fst := by
  induction r with
  | nil => rfl
  | cons p ps ih =>
    simp only [setRowVal, List.map_cons] at ih ⊢
    by_cases h : p.1 == c
    · simp only [h, if_pos rfl]
      simpa using ih
    · simp only [h]
      simp only [Bool.false_eq_true, if_false, List.map_cons]
      rw [show List.map (fun p => if p.1 == c then (p.1, v) else p) ps = setRowVal ps c v from rfl] at *
      simp [ih]

theorem rowGet_setRowVal_same (r : Row) (c v : String) (h : c ∈ r.map Prod.fst) :
    rowGet (setRowVal r c v) c = v := by
  induction r with
  | nil => simp at h
  | cons p ps ih =>
    by_cases hp : p.1 = c
    · simp [setRowVal, rowGet, hp, List.find?]
    · have hp2 : (p.1 == c) = false := beq_eq_false_iff_ne.mpr hp
      simp only [setRowVal, List.map_cons, hp2, Bool.false_eq_true, if_false]
      simp only [rowGet, List.find?, hp2]
      have hmem : c ∈ ps.map Prod.fst := by
        simp only [List.map_cons, List.mem_cons] at h
        rcases h with h | h
        · exact absurd h.symm hp
        · exact h
      exact ih hmem

theorem rowGet_setRowVal_other (r : Row) (c v c2 : String) (h : c2 ≠ c) :
    rowGet (setRowVal r c v) c2 = rowGet r c2 := by
  induction r with
  | nil => rfl
  | cons p ps ih =>
    by_cases hp : p.1 = c
    · have hb : (p.1 == c) = true := beq_iff_eq.mpr hp
      have hne : (p.1 == c2) = false := beq_eq_false_iff_ne.mpr (fun he => h (he ▸ hp))
      have hhead : (if p.1 == c then (p.1, v) else p) = (p.1, v) := by simp [hb]
      simp only [setRowVal, List.map_cons, hhead]
      simp only [rowGet, List.find?]
      rw [show ((p.1, v).1 == c2) = (p.1 == c2) from rfl, hne]
      exact ih
    · have hp2 : (p.1 == c) = false := beq_eq_false_iff_ne.mpr hp
      simp only [setRowVal, List.map_cons, hp2, Bool.false_eq_true, if_false]
      simp only [rowGet, List.find?]
      cases hq : (p.1 == c2)
      · exact ih
      · rfl

theorem rowGet_tabulate (outcols : List String) (V : String → String) (c : String)
    (h : c ∈ outcols) :
    rowGet (outcols.map (fun c2 => (c2, V c2))) c = V c := by
  induction outcols with
  | nil => simp at h
  | cons c0 cs ih =>
    by_cases hc : c0 = c
    · subst hc
      simp [rowGet, List.find?]
    · have hb : (c0 == c) = false := beq_eq_false_iff_ne.mpr hc
      simp only [List.map_cons, rowGet, List.find?, hb]
      have : c ∈ cs := by
        rcases List.mem_cons.mp h with h | h
        · exact absurd h.symm hc
        · exact h
      exact ih this

theorem keys_tabulate (outcols : List String) (V : String → String) :
    (outcols.map (fun c2 => (c2, V c2))).map Prod.fst = outcols := by
  induction outcols with
  | nil => rfl
  | cons c0 cs ih => simp [ih]

/-! ## find_col and frame-level lemmas -/

theorem lastColWith_mem (cols : List String) (k : String) :
    ∀ c, lastColWith cols k = some c → c ∈ cols ∧ norm_key c = k := by
  induction cols with
  | nil => intro c h; simp [lastColWith] at h
  | cons c0 cs ih =>
    intro c h
    simp only [lastColWith] at h
    cases hrec : lastColWith cs k with
    | some c2 =>
      rw [hrec] at h
      injection h with h
      subst h
      have h2 := ih _ hrec
      exact ⟨by simp [h2.1], h2.2⟩
    | none =>
      rw [hrec] at h
      by_cases hk : (norm_key c0 == k) = true
      · rw [if_pos hk] at h
        injection h with h
        subst h
        exact ⟨by simp, beq_iff_eq.mp hk⟩
      · rw [if_neg hk] at h
        exact absurd h (by simp)

theorem lastColWith_isSome (cols : List String) (k c : String) (hc : c ∈ cols)
    (hk : norm_key c = k) : (lastColWith cols k).isSome = true := by
  induction cols with
  | nil => simp at hc
  | cons c0 cs ih =>
    simp only [lastColWith]
    cases hrec : lastColWith cs k with
    | some c2 => rfl
    | none =>
      rcases List.mem_cons.mp hc with h | h
      · rw [if_pos (beq_iff_eq.mpr (h ▸ hk))]
        rfl
      · have := ih h
        rw [hrec] at this
        simp at this

theorem find_col_const (cols : List String) (K : String) :
    ∀ (cands : List String), cands ≠ [] → (∀ y ∈ cands, norm_key y = K) →
      find_col cols cands = lastColWith cols K := by
  intro cands
  induction cands with
  | nil => intro h; exact absurd rfl h
  | cons x xs ih =>
    intro _ hall
    simp only [find_col]
    rw [hall x (by simp)]
    cases hlc : lastColWith cols K with
    | some c => rfl
    | none =>
      cases xs with
      | nil => simp [find_col]
      | cons y ys =>
        have := ih (by simp) (fun z hz => hall z (by simp [hz]))
        rw [hlc] at this
        exact this

theorem keys_blankOne (cols cands : List String) (r : Row) :
    (blankOne cols cands r).map Prod.fst = r.map Prod.fst := by
  unfold blankOne
  cases find_col cols cands with
  | some c => exact keys_setRowVal r c ""
  | none => rfl

theorem keys_replRow (t : Row) (n o : String) (s : Sel) :
    (replRow t n o s).map Prod.fst = t.map Prod.fst := by
  simp [replRow, keys_setRowVal]

theorem rowGet_blankOne_ne (cols cands : List String) (r : Row) (c : String)
    (h : ∀ c0, find_col cols cands = some c0 → c0 ≠ c) :
    rowGet (blankOne cols cands r) c = rowGet r c := by
  unfold blankOne
  cases hf : find_col cols cands with
  | none => rfl
  | some c0 => exact rowGet_setRowVal_other r c0 "" c (fun he => h c0 hf he.symm)

theorem rowGet_blankOne_hit (cols cands : List String) (r : Row) (c : String)
    (hf : find_col cols cands = some c) (hm : c ∈ r.map Prod.fst) :
    rowGet (blankOne cols cands r) c = "" := by
  unfold blankOne
  rw [hf]
  exact rowGet_setRowVal_same r c "" hm

theorem setCol_contains (cols : List String) (rows : List Row) (c : String)
    (vals : List String) (h : cols.contains c = true) :
    Frame.setCol ⟨cols, rows⟩ c vals =
      ⟨cols, (rows.zip vals).map (fun rv => setRowVal rv.1 c rv.2)⟩ := by
  simp only [Frame.setCol, h, if_pos]

theorem blankCol_frame (cols : List String) (rows : List Row) (cands : List String) :
    Frame.blankCol ⟨cols, rows⟩ cands = ⟨cols, rows.map (fun r => blankOne cols cands r)⟩ := by
  unfold Frame.blankCol blankOne
  cases find_col cols cands with
  | some c => rfl
  | none => simp

theorem selectCols_all (cols : List String) (rows : List Row) (outcols : List String)
    (h : ∀ c ∈ outcols, c ∈ cols) :
    selectCols ⟨cols, rows⟩ outcols =
      some (rows.map (fun r => outcols.map (fun c => (c, rowGet r c)))) := by
  unfold selectCols
  rw [if_pos]
  simp only [List.all_eq_true]
  intro c hc
  simpa using h c hc

theorem replicate_master (template : Row) (sels : List Sel) (outcols : List String)
    (nameCol oddsCol : String)
    (hne : sels ≠ [])
    (hn : nameCol ∈ template.map Prod.fst)
    (ho : oddsCol ∈ template.map Prod.fst)
    (hout : ∀ c ∈ outcols, c ∈ template.map Prod.fst) :
    replicate_from_template template sels outcols nameCol oddsCol =
      some (sels.map (fun s => outcols.map (fun c =>
        (c, rowGet (blankAll (template.map Prod.fst)
              (replRow template nameCol oddsCol s)) c)))) := by
  have hie : sels.isEmpty = false := by
    cases sels with
    | nil => exact absurd rfl hne
    | cons a as => rfl
  have hcn : (template.map Prod.fst).contains nameCol = true := by
    simpa using hn
  have hco : (template.map Prod.fst).contains oddsCol = true := by
    simpa using ho
  simp only [replicate_from_template]
  rw [hie]
  simp only [Bool.false_eq_true, if_false]
  rw [setCol_contains _ _ _ _ hcn, List.zip_map', List.map_map]
  rw [setCol_contains _ _ _ _ hco, List.zip_map', List.map_map]
  simp only [blankCol_frame, List.map_map]
  rw [selectCols_all _ _ _ hout, List.map_map]
  simp only [blankAll, replRow, Function.comp]
  rfl

theorem find_col_variant_ne (tcols cands : List String) (K c : String)
    (h1 : cands ≠ []) (h2 : ∀ y ∈ cands, norm_key y = K) (hck : norm_key c ≠ K) :
    ∀ c0, find_col tcols cands = some c0 → c0 ≠ c := by
  intro c0 hf he
  rw [find_col_const tcols K cands h1 h2] at hf
  have hm := (lastColWith_mem tcols K c0 hf).2
  exact hck (he ▸ hm)

theorem find_col_variant_hit (tcols cands : List String) (K c : String)
    (h1 : cands ≠ []) (h2 : ∀ y ∈ cands, norm_key y = K) (hc : c ∈ tcols)
    (hk : norm_key c = K) (hKvar : isOddsVariantKey K = true)
    (huniq : ∀ c1 ∈ tcols, ∀ c2 ∈ tcols,
      norm_key c1 = norm_key c2 → isOddsVariantKey (norm_key c1) = true → c1 = c2) :
    find_col tcols cands = some c := by
  rw [find_col_const tcols K cands h1 h2]
  obtain ⟨c0, hc0⟩ := Option.isSome_iff_exists.mp (lastColWith_isSome tcols K c hc hk)
  have hm := lastColWith_mem tcols K c0 hc0
  have he : c0 = c := huniq c0 hm.1 c hc (by rw [hm.2, hk]) (by rw [hm.2]; exact hKvar)
  rw [hc0, he]

theorem rowGet_blankAll_variant (tcols : List String) (r : Row) (c : String)
    (hkeys : r.map Prod.fst = tcols) (hc : c ∈ tcols)
    (hvar : isOddsVariantKey (norm_key c) = true)
    (huniq : ∀ c1 ∈ tcols, ∀ c2 ∈ tcols,
      norm_key c1 = norm_key c2 → isOddsVariantKey (norm_key c1) = true → c1 = c2) :
    rowGet (blankAll tcols r) c = "" := by
  have hk1 : (blankOne tcols ["FirstOdds", "firstodds", "Firstodds"] r).map Prod.fst = tcols := by
    rw [keys_blankOne, hkeys]
  have hk2 : (blankOne tcols ["LastOdds", "lastodds", "Lastodds"]
      (blankOne tcols ["FirstOdds", "firstodds", "Firstodds"] r)).map Prod.fst = tcols := by
    rw [keys_blankOne, hk1]
  have hvar3 : norm_key c = "firstodds" ∨ norm_key c = "lastodds" ∨ norm_key c = "anyodds" := by
    have := hvar
    simp only [isOddsVariantKey, Bool.or_eq_true, beq_iff_eq] at this
    tauto
  rcases hvar3 with h | h | h
  · unfold blankAll
    rw [rowGet_blankOne_ne tcols _ _ c
      (find_col_variant_ne tcols _ "anyodds" c (by simp) (by decide) (by rw [h]; decide))]
    rw [rowGet_blankOne_ne tcols _ _ c
      (find_col_variant_ne tcols _ "lastodds" c (by simp) (by decide) (by rw [h]; decide))]
    exact rowGet_blankOne_hit tcols _ r c
      (find_col_variant_hit tcols _ "firstodds" c (by simp) (by decide) hc h (by decide) huniq)
      (by rw [hkeys]; exact hc)
  · unfold blankAll
    rw [rowGet_blankOne_ne tcols _ _ c
      (find_col_variant_ne tcols _ "anyodds" c (by simp) (by decide) (by rw [h]; decide))]
    exact rowGet_blankOne_hit tcols _ _ c
      (find_col_variant_hit tcols _ "lastodds" c (by simp) (by decide) hc h (by decide) huniq)
      (by rw [hk1]; exact hc)
  · unfold blankAll
    exact rowGet_blankOne_hit tcols _ _ c
      (find_col_variant_hit tcols _ "anyodds" c (by simp) (by decide) hc h (by decide) huniq)
      (by rw [hk2]; exact hc)

theorem rowGet_blankAll_nonvariant (tcols : List String) (r : Row) (c : String)
    (hnv : isOddsVariantKey (norm_key c) = false) :
    rowGet (blankAll tcols r) c = rowGet r c := by
  have h3 : norm_key c ≠ "firstodds" ∧ norm_key c ≠ "lastodds" ∧ norm_key c ≠ "anyodds" := by
    have := hnv
    simp only [isOddsVariantKey, Bool.or_eq_false_iff, beq_eq_false_iff_ne] at this
    tauto
  unfold blankAll
  rw [rowGet_blankOne_ne tcols _ _ c
    (find_col_variant_ne tcols _ "anyodds" c (by simp) (by decide) h3.2.2)]
  rw [rowGet_blankOne_ne tcols _ _ c
    (find_col_variant_ne tcols _ "lastodds" c (by simp) (by decide) h3.2.1)]
  rw [rowGet_blankOne_ne tcols _ _ c
    (find_col_variant_ne tcols _ "firstodds" c (by simp) (by decide) h3.1)]

/-- Counterexample to C4 as stated: with two template columns both
normalising to `firstodds`, only the later one is blanked — the column
`FirstOdds`, a recognised first-odds variant, keeps its template value. -/
theorem spec_c4_counterexample :
    replicate_from_template
        [("FirstOdds", "X"), ("firstodds", "Y"), ("Name", "n0"), ("Odds", "o0")]
        [⟨"M", "T", "Alice", "2.0"⟩]
        ["FirstOdds", "firstodds", "Name", "Odds"] "Name" "Odds" =
      some [[("FirstOdds", "X"), ("firstodds", ""), ("Name", "Alice"), ("Odds", "2.0")]] ∧
    isOddsVariantKey (norm_key "FirstOdds") = true ∧ (("X" : String) ≠ "") := by
  refine ⟨by decide, by decide, by decide⟩

/-- Claim C4 (amended): provided no two template columns share a normalised
first/last/any-odds key, every output row carries exactly the requested
columns in order, every recognised odds-variant column is blanked, and
every other column except the selection name/odds columns keeps the
template value. -/
theorem spec_c4_replication_values (template : Row) (sels : List Sel)
    (outcols : List String) (nameCol oddsCol : String)
    (hne : sels ≠ [])
    (hn : nameCol ∈ template.map Prod.fst)
    (ho : oddsCol ∈ template.map Prod.fst)
    (hout : ∀ c ∈ outcols, c ∈ template.map Prod.fst)
    (huniq : ∀ c1 ∈ template.map Prod.fst, ∀ c2 ∈ template.map Prod.fst,
      norm_key c1 = norm_key c2 → isOddsVariantKey (norm_key c1) = true → c1 = c2) :
    ∃ out, replicate_from_template template sels outcols nameCol oddsCol = some out ∧
      ∀ r ∈ out, r.map Prod.fst = outcols ∧
        ∀ c ∈ outcols,
          (isOddsVariantKey (norm_key c) = true → rowGet r c = "") ∧
          (isOddsVariantKey (norm_key c) = false → c ≠ nameCol → c ≠ oddsCol →
            rowGet r c = rowGet template c) := by
  refine ⟨_, replicate_master template sels outcols nameCol oddsCol hne hn ho hout, ?_⟩
  intro r hr
  obtain ⟨s, hs, rfl⟩ := List.mem_map.mp hr
  refine ⟨keys_tabulate _ _, ?_⟩
  intro c hcout
  have hct : c ∈ template.map Prod.fst := hout c hcout
  have hkeysrepl : (replRow template nameCol oddsCol s).map Prod.fst = template.map Prod.fst :=
    keys_replRow template nameCol oddsCol s
  constructor
  · intro hvar
    rw [rowGet_tabulate outcols _ c hcout]
    exact rowGet_blankAll_variant _ _ c hkeysrepl hct hvar huniq
  · intro hnv hcn hco2
    rw [rowGet_tabulate outcols _ c hcout]
    rw [rowGet_blankAll_nonvariant _ _ c hnv]
    unfold replRow
    rw [rowGet_setRowVal_other _ _ _ _ hco2]
    exact rowGet_setRowVal_other _ _ _ _ hcn

/-- Witness for C4 (amended) at a concrete template/selection. -/
theorem spec_c4_replication_values_witness :
    ∃ out, replicate_from_template
        [("MarketID", "101"), ("FirstOdds", "X"), ("Name", "n0"), ("Odds", "o0")]
        [⟨"M", "T", "Alice", "2.0"⟩]
        ["MarketID", "FirstOdds", "Name", "Odds"] "Name" "Odds" = some out ∧
      ∀ r ∈ out, r.map Prod.fst = ["MarketID", "FirstOdds", "Name", "Odds"] ∧
        ∀ c ∈ (["MarketID", "FirstOdds", "Name", "Odds"] : List String),
          (isOddsVariantKey (norm_key c) = true → rowGet r c = "") ∧
          (isOddsVariantKey (norm_key c) = false → c ≠ "Name" → c ≠ "Odds" →
            rowGet r c =
              rowGet [("MarketID", "101"), ("FirstOdds", "X"), ("Name", "n0"), ("Odds", "o0")] c) :=
  spec_c4_replication_values
    [("MarketID", "101"), ("FirstOdds", "X"), ("Name", "n0"), ("Odds", "o0")]
    [⟨"M", "T", "Alice", "2.0"⟩] ["MarketID", "FirstOdds", "Name", "Odds"] "Name" "Odds"
    (by decide) (by decide) (by decide) (by decide) (by decide)

/-- Counterexample to C5 as stated: with an empty selection list the
intermediate frame has only the two selection columns, so selecting any
other template column fails (`KeyError`) instead of producing zero rows. -/
theorem spec_c5_counterexample :
    replicate_from_template [("A", "1")] [] ["A"] "B" "C" = none := by
  decide

/-- Claim C5 (amended): the replicator yields one output row per selection
whenever the selection list is non-empty (and the selection columns exist
in the template with the output columns drawn from it); with an empty
selection list the final column selection errors as soon as some output
column is neither the selection-name nor the selection-odds column. -/
theorem spec_c5_row_count (template : Row) (outcols : List String)
    (nameCol oddsCol : String) :
    (∀ (sels : List Sel), sels ≠ [] →
      nameCol ∈ template.map Prod.fst → oddsCol ∈ template.map Prod.fst →
      (∀ c ∈ outcols, c ∈ template.map Prod.fst) →
      ∃ out, replicate_from_template template sels outcols nameCol oddsCol = some out ∧
        out.length = sels.length) ∧
    (∀ c ∈ outcols, c ≠ nameCol → c ≠ oddsCol →
      replicate_from_template template [] outcols nameCol oddsCol = none) := by
  constructor
  · intro sels hne hn ho hout
    exact ⟨_, replicate_master template sels outcols nameCol oddsCol hne hn ho hout, by simp⟩
  · intro c hc hcn hco
    have hsel : ∀ (cols2 : List String), (∀ x ∈ cols2, x = nameCol ∨ x = oddsCol) →
        selectCols ⟨cols2, []⟩ outcols = none := by
      intro cols2 hsub
      unfold selectCols
      rw [if_neg]
      intro hall
      rw [List.all_eq_true] at hall
      have hmem : c ∈ cols2 := by simpa using hall c hc
      rcases hsub c hmem with h | h
      · exact hcn h
      · exact hco h
    have h1 : Frame.setCol ⟨[], []⟩ nameCol [] = ⟨[nameCol], []⟩ := by
      simp [Frame.setCol]
    by_cases hb : ([nameCol] : List String).contains oddsCol = true
    · have h2 : Frame.setCol ⟨[nameCol], []⟩ oddsCol [] = ⟨[nameCol], []⟩ := by
        unfold Frame.setCol
        rw [if_pos hb]
        rfl
      simp only [replicate_from_template, List.map_nil, List.isEmpty_nil, if_true, h1, h2,
        blankCol_frame]
      exact hsel [nameCol] (fun x hx => Or.inl (by simpa using hx))
    · have h2 : Frame.setCol ⟨[nameCol], []⟩ oddsCol [] = ⟨[nameCol, oddsCol], []⟩ := by
        simp only [Frame.setCol, hb, if_false]
        simp
      simp only [replicate_from_template, List.map_nil, List.isEmpty_nil, if_true, h1, h2,
        blankCol_frame]
      refine hsel [nameCol, oddsCol] (fun x hx => ?_)
      rcases List.mem_cons.mp hx with h | h
      · exact Or.inl h
      · exact Or.inr (by simpa using h)

/-- Witness for C5 (amended) on concrete data: two selections give two rows,
and the empty-selection case errors. -/
theorem spec_c5_row_count_witness :
    (∃ out, replicate_from_template [("Name", "n0"), ("Odds", "o0")]
        [⟨"M", "T", "Alice", "2.0"⟩, ⟨"M", "T", "Bob", "3.0"⟩]
        ["Name", "Odds"] "Name" "Odds" = some out ∧ out.length = 2) ∧
    replicate_from_template [("Name", "n0"), ("Odds", "o0")] [] ["Z"] "Name" "Odds" = none := by
  constructor
  · exact (spec_c5_row_count [("Name", "n0"), ("Odds", "o0")] ["Name", "Odds"] "Name" "Odds").1
      [⟨"M", "T", "Alice", "2.0"⟩, ⟨"M", "T", "Bob", "3.0"⟩]
      (by decide) (by decide) (by decide) (by decide)
  · exact (spec_c5_row_count [("Name", "n0"), ("Odds", "o0")] ["Z"] "Name" "Odds").2
      "Z" (by decide) (by decide) (by decide)

/-! ## Export assembler: the broken Top Batter lookup, and action preconditions -/

/-- Evidence for C6 (code bug): a session whose template contains a row
named `India Top Batter` and whose parsed text has Top Bowler/Top Batter
selections for India.  The Top Bowler pass merely records a note, but the
Top Batter lookup `tpl_by_name(A) or tpl_by_name(B)` evaluates
`bool(Series)` and raises, aborting the whole export instead of emitting
the pass rows — and in the committed file the surrounding lines 228–230 are
an `IndentationError`, so the handler cannot run at all. -/
theorem spec_c6_export_aborts :
    export_run
        [⟨"Player of the Match", "", "Kohli", "2.5"⟩,
         ⟨"Top Bowler", "India", "Bumrah", "3.0"⟩,
         ⟨"Top Batter", "India", "Gill", "4.0"⟩]
        (build_template_map
          [[("MarketName", "Player of the Match"), ("SelectionName", ""),
            ("SelectionOdds", ""), ("MarketID", "101")],
           [("MarketName", "India Top Batter"), ("SelectionName", ""),
            ("SelectionOdds", ""), ("MarketID", "102")]]
          "MarketName")
        ["MarketName", "SelectionName", "SelectionOdds", "MarketID"]
        "SelectionName" "SelectionOdds" =
      Except.error "ValueError: The truth value of a Series is ambiguous" := by
  rfl

/-- Evidence for C7 (code bug): the first Top Batter name form resolves in
the Template Index, yet the lookup chain of line 239 raises instead of
stopping at that first hit. -/
theorem spec_c7_fallback_chain_raises :
    tpl_by_name
        (build_template_map
          [[("MarketName", "Aus Top Batter"), ("X", "1")],
           [("MarketName", "Top Batter - Aus - 1st Innings"), ("X", "2")]] "MarketName")
        "Aus Top Batter" =
      some [("MarketName", "Aus Top Batter"), ("X", "1")] ∧
    pySeriesOr
        (tpl_by_name
          (build_template_map
            [[("MarketName", "Aus Top Batter"), ("X", "1")],
             [("MarketName", "Top Batter - Aus - 1st Innings"), ("X", "2")]] "MarketName")
          "Aus Top Batter")
        (tpl_by_name
          (build_template_map
            [[("MarketName", "Aus Top Batter"), ("X", "1")],
             [("MarketName", "Top Batter - Aus - 1st Innings"), ("X", "2")]] "MarketName")
          "Top Batter - Aus - 1st Innings") =
      Except.error "ValueError: The truth value of a Series is ambiguous" := by
  refine ⟨by decide, by rfl⟩

/-- Claim C8: each Parse precondition failure (no upload, empty frame,
missing required column, empty parse) reports an error and leaves the
session state unchanged, and Export before any successful Parse fails
fast. -/
theorem spec_c8_preconditions :
    (∀ (text : String) (st : Option ParseState),
      parse_action none text st = (st, some "Upload a Boss export first.")) ∧
    (∀ (f : Frame) (text : String) (st : Option ParseState), f.isEmpty = true →
      parse_action (some f) text st = (st, some "Uploaded Boss file is empty or unsupported.")) ∧
    (∀ (f : Frame) (text : String) (st : Option ParseState), f.isEmpty = false →
      (find_col f.cols ["MarketName", "marketname"] = none ∨
       find_col f.cols ["SelectionName", "selectionname", "Selection", "Runner", "Name"] = none ∨
       find_col f.cols ["SelectionOdds", "selectionodds", "Odds", "Price", "DecimalOdds"] = none) →
      parse_action (some f) text st =
        (st, some "Boss file must contain columns for MarketName, SelectionName and SelectionOdds.")) ∧
    (∀ (f : Frame) (text : String) (st : Option ParseState) (mc nc oc : String),
      f.isEmpty = false →
      find_col f.cols ["MarketName", "marketname"] = some mc →
      find_col f.cols ["SelectionName", "selectionname", "Selection", "Runner", "Name"] = some nc →
      find_col f.cols ["SelectionOdds", "selectionodds", "Odds", "Price", "DecimalOdds"] = some oc →
      parse_unibet text = [] →
      parse_action (some f) text st = (st, some "No selections parsed from Unibet text.")) ∧
    export_action none = Except.error "Click Parse first." := by
  refine ⟨fun text st => rfl, ?_, ?_, ?_, rfl⟩
  · intro f text st hemp
    simp only [parse_action, hemp, if_true]
  · intro f text st hemp hmiss
    simp only [parse_action, hemp, Bool.false_eq_true, if_false]
    rcases hmiss with h | h | h
    · rw [h]
    · rw [h]
      cases find_col f.cols ["MarketName", "marketname"] <;>
        cases find_col f.cols ["SelectionOdds", "selectionodds", "Odds", "Price", "DecimalOdds"] <;>
        rfl
    · rw [h]
      cases find_col f.cols ["MarketName", "marketname"] <;>
        cases find_col f.cols ["SelectionName", "selectionname", "Selection", "Runner", "Name"] <;>
        rfl
  · intro f text st mc nc oc hemp hmc hnc hoc hparse
    simp only [parse_action, hemp, Bool.false_eq_true, if_false, hmc, hnc, hoc, hparse,
      List.isEmpty_nil, if_true]

/-- Witness for C8 at concrete inputs. -/
theorem spec_c8_preconditions_witness :
    parse_action none "" none = (none, some "Upload a Boss export first.") ∧
    parse_action (some ⟨[], []⟩) "" none =
      (none, some "Uploaded Boss file is empty or unsupported.") ∧
    parse_action (some ⟨["Foo"], [[("Foo", "1")]]⟩) "" none =
      (none, some "Boss file must contain columns for MarketName, SelectionName and SelectionOdds.") ∧
    parse_action
        (some ⟨["MarketName", "Name", "Odds"], [[("MarketName", "m"), ("Name", ""), ("Odds", "")]]⟩)
        "" none =
      (none, some "No selections parsed from Unibet text.") ∧
    export_action none = Except.error "Click Parse first." := by
  refine ⟨spec_c8_preconditions.1 "" none, ?_, ?_, ?_, spec_c8_preconditions.2.2.2.2⟩
  · exact spec_c8_preconditions.2.1 ⟨[], []⟩ "" none (by decide)
  · exact spec_c8_preconditions.2.2.1 ⟨["Foo"], [[("Foo", "1")]]⟩ "" none (by decide)
      (Or.inl (by decide))
  · exact spec_c8_preconditions.2.2.2.1
      ⟨["MarketName", "Name", "Odds"], [[("MarketName", "m"), ("Name", ""), ("Odds", "")]]⟩
      "" none "MarketName" "Name" "Odds" (by decide) (by decide) (by decide) (by decide)
      (by decide)
